import Mathlib

/-!
Verification of the nyt-rankbot score-tracking engine.

This development gives a shallow embedding of the engine's logic:

* the persisted record model and the store operations of
  `src/database/db_setup.py` and `src/database/queries.py`
  (a row list with append-insert, filter-delete and a key lookup;
  the schema has an auto-increment primary key `id` and no
  uniqueness constraint on `(user, game, date)`),
* the ingestion, clearing and manual-add paths of
  `src/utils/helpers.py` (`add_game`, `clear_scoreboard` via
  `clear_table`, `add_manual_score`),
* the ranking and period-aggregation pipeline of
  `src/utils/helpers.py` (`calculate_rankings`,
  `calculate_period_total`), including the pandas
  `rank(method="min")` semantics and the `datetime`
  constructor's month-validity rule,
* the message parsers of `src/utils/calculate_attempts.py` and
  `src/utils/patterns.py` (the Wordle regex search with greedy
  backtracking and the two Connections attempt counters, the
  second one from `src/app.py`).

Machine dates are modelled as year/month/day naturals, Python
strings as lists of characters (code points), fallible Python code
(uncaught exceptions) as `Option`/`Except` results.
-/

/-! ## Dates

Python `datetime.date` values, as produced by `datetime(y, m, d).date()`.
The `datetime` constructor validates its arguments and raises
`ValueError` outside the ranges below; `pyDatetime` models it with an
`Option`. -/

/-- A calendar date as carried by the `date` column (`datetime.date`). -/
structure PyDate where
  year : Nat
  month : Nat
  day : Nat
deriving DecidableEq, Repr

/-- Gregorian leap-year rule used by Python's `datetime`/`pandas`. -/
def isLeapYear (y : Nat) : Bool :=
  y % 4 = 0 && (y % 100 ≠ 0 || y % 400 = 0)

/-- Number of days in a month, as in Python's `calendar`/`datetime`. -/
def daysInMonth (y m : Nat) : Nat :=
  if m = 1 ∨ m = 3 ∨ m = 5 ∨ m = 7 ∨ m = 8 ∨ m = 10 ∨ m = 12 then 31
  else if m = 2 then (if isLeapYear y then 29 else 28)
  else 30

/-- The `datetime(year, month, day)` constructor: `some` on valid
arguments, `none` for the `ValueError` it raises when the month is not
in `1..12`, the day not in range for the month, or the year outside
`MINYEAR..MAXYEAR`. -/
def pyDatetime (y m d : Nat) : Option PyDate :=
  if 1 ≤ y ∧ y ≤ 9999 ∧ 1 ≤ m ∧ m ≤ 12 ∧ 1 ≤ d ∧ d ≤ daysInMonth y m then
    some ⟨y, m, d⟩
  else
    none

/-- Subtracting `pd.Timedelta(days=1)` from a date. -/
def subOneDay (d : PyDate) : PyDate :=
  if 1 < d.day then ⟨d.year, d.month, d.day - 1⟩
  else if 1 < d.month then ⟨d.year, d.month - 1, daysInMonth d.year (d.month - 1)⟩
  else ⟨d.year - 1, 12, 31⟩

/-- Strict chronological order on dates (year, then month, then day). -/
def dateLtB (a b : PyDate) : Bool :=
  decide (a.year < b.year ∨ (a.year = b.year ∧
    (a.month < b.month ∨ (a.month = b.month ∧ a.day < b.day))))

/-- Non-strict chronological order on dates. -/
def dateLeB (a b : PyDate) : Bool :=
  dateLtB a b || decide (a = b)

/-! ## The persisted record and the store

The table `nyt_rankbot` (see `src/database/db_setup.py` and the
`CREATE TABLE` statement in `src/app.py`) has columns
`id` (auto-increment primary key), `user`, `game`, `score`, `date`.
The only constraint is the primary key on `id`; there is no
uniqueness constraint on `(user, game, date)`.  A store state is the
list of rows in insertion order; the auto-increment `id` is the row's
position and carries no further information, so it is left implicit. -/

/-- One row of the `nyt_rankbot` table (without the synthetic `id`). -/
structure Record where
  user : String
  game : String
  score : Int
  date : PyDate
deriving DecidableEq, Repr

/-- The store: rows of `nyt_rankbot` in insertion (`id`) order. -/
abbrev Store := List Record

/-- Does a row for this exact `(user, game, date)` key exist?
Models `user_has_submitted` in `src/database/queries.py`:
a `SELECT *` with equality conditions on the three columns,
returning whether `fetchone()` found a row. -/
def user_has_submitted (store : Store) (u g : String) (d : PyDate) : Bool :=
  store.any (fun r => decide (r.user = u) && decide (r.game = g) && decide (r.date = d))

/-- Models `add_game_to_database` in `src/database/queries.py`: an
unconditional `INSERT INTO nyt_rankbot (user, game, score, date)
VALUES (...)`.  The schema has no uniqueness constraint, so the insert
always succeeds and appends a row. -/
def add_game_to_database (store : Store) (u g : String) (s : Int) (d : PyDate) : Store :=
  store ++ [⟨u, g, s, d⟩]

/-- Models `clear_table` in `src/database/queries.py`: `DELETE FROM
nyt_rankbot WHERE date = ...` with an optional extra `user = ...`
condition. -/
def clear_table (store : Store) (d : PyDate) (user? : Option String) : Store :=
  match user? with
  | some u => store.filter (fun r => !(decide (r.date = d) && decide (r.user = u)))
  | none => store.filter (fun r => !(decide (r.date = d)))

/-- Outcome of an ingestion attempt: the spec's
`Accepted | Rejected(Duplicate)`.  `rejected` corresponds to the
"already submitted a score" reply of `add_game`. -/
inductive IngestResult where
  | accepted
  | rejected
deriving DecidableEq, Repr

/-- Models `add_game` in `src/utils/helpers.py` (the ingestion path):
first a `user_has_submitted` lookup for `(user, game, today)`; on a hit
the submission is rejected and the store untouched, otherwise the row
is inserted via `add_game_to_database` with the fields verbatim.
The date argument stands for the `datetime.now(pytz.utc).date()`
value the source computes; the Telegram replies and the scoreboard
broadcast do not touch the store. -/
def add_game (store : Store) (u g : String) (s : Int) (d : PyDate) :
    IngestResult × Store :=
  if user_has_submitted store u g d then
    (.rejected, store)
  else
    (.accepted, add_game_to_database store u g s d)

/-- Models `add_manual_score` in `src/utils/helpers.py` (the `/add`
command): after parsing its three arguments it calls
`add_game_to_database` directly — there is no `user_has_submitted`
check on this path. -/
def add_manual_score (store : Store) (u g : String) (s : Int) (d : PyDate) : Store :=
  add_game_to_database store u g s d

/-- Number of rows stored for a given `(user, game, date)` key. -/
def countKey (store : Store) (u g : String) (d : PyDate) : Nat :=
  (store.filter
    (fun r => decide (r.user = u) && decide (r.game = g) && decide (r.date = d))).length

/-- The central uniqueness invariant: at most one row per
`(user, game, date)`. -/
def KeyUnique (store : Store) : Prop :=
  ∀ u g d, countKey store u g d ≤ 1

/-- Two ingestions for the same key racing on the shared store, under
the schedule where both `user_has_submitted` lookups happen before
either `add_game_to_database` insert.  Each store call is atomic, but
`add_game` issues the check and the insert as two separate calls, so
this interleaving is possible; the store itself never rejects an
insert. -/
def interleavedDoubleIngest (store : Store) (u g : String) (s1 s2 : Int) (d : PyDate) :
    Store :=
  let c1 := user_has_submitted store u g d
  let c2 := user_has_submitted store u g d
  let store1 := if c1 then store else add_game_to_database store u g s1 d
  let store2 := if c2 then store1 else add_game_to_database store1 u g s2 d
  store2

/-! ### Basic store lemmas -/

theorem countKey_eq_zero_iff (store : Store) (u g : String) (d : PyDate) :
    countKey store u g d = 0 ↔ user_has_submitted store u g d = false := by
  simp only [countKey, user_has_submitted, List.length_eq_zero, List.filter_eq_nil_iff,
    List.any_eq_false]

theorem countKey_append (store₁ store₂ : Store) (u g : String) (d : PyDate) :
    countKey (store₁ ++ store₂) u g d = countKey store₁ u g d + countKey store₂ u g d := by
  simp [countKey, List.filter_append]

theorem countKey_singleton_le_one (r : Record) (u g : String) (d : PyDate) :
    countKey [r] u g d ≤ 1 := by
  have h := List.length_filter_le
    (fun x : Record => decide (x.user = u) && decide (x.game = g) && decide (x.date = d)) [r]
  simpa [countKey] using h

theorem countKey_insert_same (store : Store) (u g : String) (s : Int) (d : PyDate) :
    countKey (add_game_to_database store u g s d) u g d = countKey store u g d + 1 := by
  simp [add_game_to_database, countKey_append, countKey]

theorem countKey_insert_other (store : Store) (u g u' g' : String) (s : Int)
    (d d' : PyDate) (h : ¬(u = u' ∧ g = g' ∧ d = d')) :
    countKey (add_game_to_database store u g s d) u' g' d' = countKey store u' g' d' := by
  have hz : countKey [(⟨u, g, s, d⟩ : Record)] u' g' d' = 0 := by
    simp [countKey, List.filter_eq_nil_iff]
    tauto
  simp [add_game_to_database, countKey_append, hz]

theorem countKey_clear_le (store : Store) (dc : PyDate) (user? : Option String)
    (u g : String) (d : PyDate) :
    countKey (clear_table store dc user?) u g d ≤ countKey store u g d := by
  have hsub : (clear_table store dc user?).Sublist store := by
    cases user? <;> simp [clear_table]
  have := List.Sublist.countP_le
    (fun r : Record => decide (r.user = u) && decide (r.game = g) && decide (r.date = d)) hsub
  simpa [countKey, ← List.countP_eq_length_filter] using this

/-! ## The ranking engine

Models `calculate_rankings` in `src/utils/helpers.py`: the full table
(`query_all_data`) is loaded into a DataFrame, sorted by
`["date", "game", "score"]`, ranks are assigned per
`(date, game)` group by `rank(method="min")` on `score`, and the
point mapping `{1: 3, 2: 2, 3: 1}` with `fillna(0)` turns ranks into
points.  The sort key order on strings is Python's code-point
lexicographic order; the sort is modelled by a stable insertion sort. -/

/-- Code-point lexicographic strict order on character lists, as used
by Python when comparing the `game` strings. -/
def strLtB : List Char → List Char → Bool
  | [], [] => false
  | [], _ :: _ => true
  | _ :: _, [] => false
  | a :: as, b :: bs =>
      if a.toNat < b.toNat then true
      else if b.toNat < a.toNat then false
      else strLtB as bs

/-- The `sort_values(by=["date", "game", "score"])` key order on rows:
lexicographic on date, then game, then score. -/
def recordLeB (a b : Record) : Bool :=
  if dateLtB a.date b.date then true
  else if dateLtB b.date a.date then false
  else if strLtB a.game.data b.game.data then true
  else if strLtB b.game.data a.game.data then false
  else decide (a.score ≤ b.score)

/-- The sort-key order as a relation, for the sortedness lemmas. -/
def RecordLe (a b : Record) : Prop := recordLeB a b = true

instance : DecidableRel RecordLe := fun a b => by
  unfold RecordLe
  infer_instance

/-- A stored row together with its computed `points` column. -/
structure Ranked where
  user : String
  game : String
  score : Int
  date : PyDate
  points : Nat
deriving DecidableEq, Repr

/-- Scores of the `(date, game)` group of a DataFrame, the column the
pandas `groupby(["date", "game"])["score"]` ranks over. -/
def groupScores (df : List Record) (d : PyDate) (g : String) : List Int :=
  (df.filter (fun r => decide (r.date = d) && decide (r.game = g))).map (fun r => r.score)

/-- Pandas `rank(method="min")` of a value within a group: one more
than the number of group entries with a strictly smaller score, so
tied scores all receive the rank of the first tied position. -/
def rank_min (scores : List Int) (s : Int) : Nat :=
  1 + (scores.filter (fun x => decide (x < s))).length

/-- The `point_mapping = {1: 3, 2: 2, 3: 1}` dictionary followed by
`fillna(0)`: ranks outside the mapping become 0 points. -/
def point_mapping (r : Nat) : Nat :=
  if r = 1 then 3 else if r = 2 then 2 else if r = 3 then 1 else 0

/-- Models `calculate_rankings`: sort the full table by
`(date, game, score)`, then attach to every row the points derived
from its `rank(method="min")` within its `(date, game)` group. -/
def calculate_rankings (data : List Record) : List Ranked :=
  let sorted_df := List.insertionSort RecordLe data
  sorted_df.map (fun r =>
    ⟨r.user, r.game, r.score, r.date,
      point_mapping (rank_min (groupScores sorted_df r.date r.game) r.score)⟩)

/-! ### Order facts for the sort key -/

theorem strLtB_irrefl (x : List Char) : strLtB x x = false := by
  induction x with
  | nil => rfl
  | cons a as ih => simp [strLtB, ih]

theorem strLtB_asymm {x y : List Char} (h : strLtB x y = true) : strLtB y x = false := by
  induction x generalizing y with
  | nil =>
    cases y with
    | nil => simp [strLtB] at h
    | cons b bs => simp [strLtB]
  | cons a as ih =>
    cases y with
    | nil => simp [strLtB] at h
    | cons b bs =>
      simp only [strLtB] at h ⊢
      by_cases hab : a.toNat < b.toNat
      · have hba : ¬ b.toNat < a.toNat := by omega
        simp [hab, hba]
      · by_cases hba : b.toNat < a.toNat
        · simp [hab, hba] at h
        · simp only [hab, hba, if_false] at h ⊢
          simp [ih h]

theorem strLtB_eq_of_not_lt {x y : List Char} (hxy : strLtB x y = false)
    (hyx : strLtB y x = false) : x = y := by
  induction x generalizing y with
  | nil =>
    cases y with
    | nil => rfl
    | cons b bs => simp [strLtB] at hxy
  | cons a as ih =>
    cases y with
    | nil => simp [strLtB] at hyx
    | cons b bs =>
      simp only [strLtB] at hxy hyx
      by_cases hab : a.toNat < b.toNat
      · simp [hab] at hxy
      · by_cases hba : b.toNat < a.toNat
        · simp [hab, hba] at hyx
        · simp only [hab, hba, if_false] at hxy hyx
          have hchar : a = b := by
            apply Char.ext
            apply UInt32.eq_of_val_eq
            apply Fin.ext
            show a.toNat = b.toNat
            omega
          rw [hchar, ih hxy hyx]

theorem strLtB_trans {x y z : List Char} (h1 : strLtB x y = true)
    (h2 : strLtB y z = true) : strLtB x z = true := by
  induction x generalizing y z with
  | nil =>
    cases z with
    | nil =>
      cases y with
      | nil => simp [strLtB] at h1
      | cons b bs => simp [strLtB] at h2
    | cons c cs => simp [strLtB]
  | cons a as ih =>
    cases y with
    | nil => simp [strLtB] at h1
    | cons b bs =>
      cases z with
      | nil => simp [strLtB] at h2
      | cons c cs =>
        simp only [strLtB] at h1 h2 ⊢
        by_cases hab : a.toNat < b.toNat <;> by_cases hbc : b.toNat < c.toNat
        · have : a.toNat < c.toNat := by omega
          simp [this]
        · by_cases hcb : c.toNat < b.toNat
          · simp [hab, hbc, hcb] at h2
          · have hac : a.toNat < c.toNat := by omega
            simp [hac]
        · by_cases hba : b.toNat < a.toNat
          · simp [hab, hba] at h1
          · have hac : a.toNat < c.toNat := by omega
            simp [hac]
        · by_cases hba : b.toNat < a.toNat
          · simp [hab, hba] at h1
          · by_cases hcb : c.toNat < b.toNat
            · simp [hbc, hcb] at h2
            · have hnac : ¬ a.toNat < c.toNat := by omega
              have hnca : ¬ c.toNat < a.toNat := by omega
              simp only [hab, hba, if_false] at h1
              simp only [hbc, hcb, if_false] at h2
              simp only [hnac, hnca, if_false]
              exact ih h1 h2

theorem dateLtB_asymm {a b : PyDate} (h : dateLtB a b = true) : dateLtB b a = false := by
  simp only [dateLtB, decide_eq_true_eq, decide_eq_false_iff_not] at h ⊢
  omega

theorem dateLtB_trans {a b c : PyDate} (h1 : dateLtB a b = true)
    (h2 : dateLtB b c = true) : dateLtB a c = true := by
  simp only [dateLtB, decide_eq_true_eq] at h1 h2 ⊢
  omega

theorem dateLtB_eq_of_not_lt {a b : PyDate} (hab : dateLtB a b = false)
    (hba : dateLtB b a = false) : a = b := by
  simp only [dateLtB, decide_eq_false_iff_not] at hab hba
  obtain ⟨ya, ma, da⟩ := a
  obtain ⟨yb, mb, db⟩ := b
  simp only [PyDate.mk.injEq]
  simp only [not_or, not_and] at hab hba
  omega


theorem dateLtB_irrefl (d : PyDate) : dateLtB d d = false := by
  simp [dateLtB]

instance : IsTotal Record RecordLe := by
  constructor
  intro a b
  unfold RecordLe recordLeB
  by_cases h1 : dateLtB a.date b.date = true
  · left; simp [h1]
  · by_cases h2 : dateLtB b.date a.date = true
    · right; simp [h2]
    · by_cases h3 : strLtB a.game.data b.game.data = true
      · left; simp [h1, h2, h3]
      · by_cases h4 : strLtB b.game.data a.game.data = true
        · right; simp [h1, h2, h4]
        · rcases Int.le_total a.score b.score with h5 | h5
          · left; simp [h1, h2, h3, h4, h5]
          · right; simp [h1, h2, h3, h4, h5]

instance : IsTrans Record RecordLe := by
  constructor
  intro a b c hab hbc
  unfold RecordLe recordLeB at hab hbc ⊢
  by_cases dab : dateLtB a.date b.date = true <;>
    by_cases dbc : dateLtB b.date c.date = true
  · exact dateLtB_trans dab dbc ▸ by simp [dateLtB_trans dab dbc]
  · by_cases dcb : dateLtB c.date b.date = true
    · simp [dbc, dcb] at hbc
    · have hbceq : b.date = c.date :=
        dateLtB_eq_of_not_lt (Bool.eq_false_iff.mpr dbc) (Bool.eq_false_iff.mpr dcb)
      simp [← hbceq, dab]
  · by_cases dba : dateLtB b.date a.date = true
    · simp [dab, dba] at hab
    · have habeq : a.date = b.date :=
        dateLtB_eq_of_not_lt (Bool.eq_false_iff.mpr dab) (Bool.eq_false_iff.mpr dba)
      simp [habeq, dbc]
  · by_cases dba : dateLtB b.date a.date = true
    · simp [dab, dba] at hab
    · by_cases dcb : dateLtB c.date b.date = true
      · simp [dbc, dcb] at hbc
      · have habeq : a.date = b.date :=
          dateLtB_eq_of_not_lt (Bool.eq_false_iff.mpr dab) (Bool.eq_false_iff.mpr dba)
        have hbceq : b.date = c.date :=
          dateLtB_eq_of_not_lt (Bool.eq_false_iff.mpr dbc) (Bool.eq_false_iff.mpr dcb)
        have haceq : a.date = c.date := habeq.trans hbceq
        simp only [dab, dba, if_false, Bool.false_eq_true] at hab
        simp only [dbc, dcb, if_false, Bool.false_eq_true] at hbc
        simp only [haceq, dateLtB_irrefl, if_false, Bool.false_eq_true]
        by_cases gab : strLtB a.game.data b.game.data = true <;>
          by_cases gbc : strLtB b.game.data c.game.data = true
        · simp [strLtB_trans gab gbc]
        · by_cases gcb : strLtB c.game.data b.game.data = true
          · simp [gbc, gcb] at hbc
          · have hg : b.game.data = c.game.data :=
              strLtB_eq_of_not_lt (Bool.eq_false_iff.mpr gbc) (Bool.eq_false_iff.mpr gcb)
            simp [← hg, gab]
        · by_cases gba : strLtB b.game.data a.game.data = true
          · simp [gab, gba] at hab
          · have hg : a.game.data = b.game.data :=
              strLtB_eq_of_not_lt (Bool.eq_false_iff.mpr gab) (Bool.eq_false_iff.mpr gba)
            simp [hg, gbc]
        · by_cases gba : strLtB b.game.data a.game.data = true
          · simp [gab, gba] at hab
          · by_cases gcb : strLtB c.game.data b.game.data = true
            · simp [gbc, gcb] at hbc
            · have hgab : a.game.data = b.game.data :=
                strLtB_eq_of_not_lt (Bool.eq_false_iff.mpr gab) (Bool.eq_false_iff.mpr gba)
              have hgbc : b.game.data = c.game.data :=
                strLtB_eq_of_not_lt (Bool.eq_false_iff.mpr gbc) (Bool.eq_false_iff.mpr gcb)
              have hgac : a.game.data = c.game.data := hgab.trans hgbc
              simp only [gab, gba, if_false, Bool.false_eq_true] at hab
              simp only [gbc, gcb, if_false, Bool.false_eq_true] at hbc
              simp only [hgac, strLtB_irrefl, if_false, Bool.false_eq_true]
              simp only [decide_eq_true_eq] at hab hbc ⊢
              omega

/-! ### Ranking lemmas -/

theorem rank_min_eq_countP (scores : List Int) (s : Int) :
    rank_min scores s = 1 + scores.countP (fun x => decide (x < s)) := by
  simp [rank_min, List.countP_eq_length_filter]

/-- The rank assigned by the pipeline only depends on the multiset of
rows, so the pre-sort table and the sorted table give the same rank. -/
theorem rank_min_groupScores_perm {df df' : List Record} (hperm : df.Perm df')
    (d : PyDate) (g : String) (s : Int) :
    rank_min (groupScores df d g) s = rank_min (groupScores df' d g) s := by
  unfold groupScores
  rw [rank_min_eq_countP, rank_min_eq_countP,
    List.countP_map, List.countP_map, List.countP_filter, List.countP_filter,
    hperm.countP_eq]

/-- In a score-ascending list, the "min"-method rank of an element is
one more than the index of its first occurrence: tied scores share the
rank of the first tied position. -/
theorem rank_min_eq_indexOf_succ (l : List Int)
    (hl : List.Sorted (fun a b : Int => a ≤ b) l) (s : Int) (hs : s ∈ l) :
    rank_min l s = l.indexOf s + 1 := by
  induction l with
  | nil => cases hs
  | cons a t ih =>
    rw [List.sorted_cons] at hl
    obtain ⟨ha, ht⟩ := hl
    rw [rank_min_eq_countP]
    by_cases heq : a = s
    · subst heq
      rw [List.indexOf_cons_self]
      have hz : (a :: t).countP (fun x => decide (x < a)) = 0 := by
        rw [List.countP_eq_zero]
        intro x hx
        simp only [decide_eq_true_eq, not_lt]
        rcases List.mem_cons.mp hx with h | h
        · omega
        · exact ha x h
      omega
    · have hst : s ∈ t := by
        rcases List.mem_cons.mp hs with h | h
        · exact absurd h.symm heq
        · exact h
      have halt : a < s := lt_of_le_of_ne (ha s hst) heq
      rw [List.indexOf_cons_ne t heq]
      have hcnt : (a :: t).countP (fun x => decide (x < s)) =
          t.countP (fun x => decide (x < s)) + 1 := by
        rw [List.countP_cons]
        simp [halt]
      have hrank := ih ht hst
      rw [rank_min_eq_countP] at hrank
      omega

/-- Re-building a record from its fields gives the record back. -/
theorem record_eta (r : Record) : (⟨r.user, r.game, r.score, r.date⟩ : Record) = r := by
  cases r
  rfl

/-- The points attached by `calculate_rankings`: for every output row,
points are the `point_mapping` image of the row's min-rank within its
`(date, game)` group of the input table. -/
theorem calculate_rankings_points (data : List Record) (x : Ranked)
    (hx : x ∈ calculate_rankings data) :
    x.points = point_mapping (rank_min (groupScores data x.date x.game) x.score) := by
  unfold calculate_rankings at hx
  obtain ⟨r, hr, hfr⟩ := List.mem_map.mp hx
  have hperm : (List.insertionSort RecordLe data).Perm data :=
    List.perm_insertionSort RecordLe data
  subst hfr
  simp only
  rw [rank_min_groupScores_perm hperm]

/-- The output rows of `calculate_rankings` are exactly the input rows
with a points column attached (as a permutation: the pipeline reorders
but neither drops nor invents rows). -/
theorem calculate_rankings_perm (data : List Record) :
    ((calculate_rankings data).map (fun x => (⟨x.user, x.game, x.score, x.date⟩ : Record))).Perm
      data := by
  unfold calculate_rankings
  have hperm : (List.insertionSort RecordLe data).Perm data :=
    List.perm_insertionSort RecordLe data
  rw [List.map_map]
  have hmapeq :
      ((fun x : Ranked => (⟨x.user, x.game, x.score, x.date⟩ : Record)) ∘
        (fun r : Record =>
          (⟨r.user, r.game, r.score, r.date,
            point_mapping
              (rank_min (groupScores (List.insertionSort RecordLe data) r.date r.game)
                r.score)⟩ : Ranked))) = id := by
    funext r
    simp [record_eta]
  rw [hmapeq, List.map_id]
  exact hperm

/-- Within each `(date, game)` group, the rows of `calculate_rankings`
appear in ascending score order (the per-group trace of the
`sort_values(by=["date", "game", "score"])` ordering). -/
theorem calculate_rankings_group_sorted (data : List Record) (d : PyDate) (g : String) :
    List.Pairwise (fun a b : Ranked => a.score ≤ b.score)
      ((calculate_rankings data).filter
        (fun x => decide (x.date = d) && decide (x.game = g))) := by
  have hsorted : List.Sorted RecordLe (List.insertionSort RecordLe data) :=
    List.sorted_insertionSort RecordLe data
  have hmap : List.Pairwise
      (fun x y : Ranked =>
        RecordLe ⟨x.user, x.game, x.score, x.date⟩ ⟨y.user, y.game, y.score, y.date⟩)
      (calculate_rankings data) := by
    unfold calculate_rankings
    apply List.Pairwise.map
    · intro a b hab
      simpa [record_eta] using hab
    · exact hsorted
  have hfiltered : List.Pairwise
      (fun x y : Ranked =>
        RecordLe ⟨x.user, x.game, x.score, x.date⟩ ⟨y.user, y.game, y.score, y.date⟩)
      ((calculate_rankings data).filter
        (fun x => decide (x.date = d) && decide (x.game = g))) :=
    List.Pairwise.sublist (List.filter_sublist _) hmap
  apply List.Pairwise.imp_of_mem ?_ hfiltered
  intro a b ha hb hr
  have ha' := (List.mem_filter.mp ha).2
  have hb' := (List.mem_filter.mp hb).2
  simp only [Bool.and_eq_true, decide_eq_true_eq] at ha' hb'
  obtain ⟨had, hag⟩ := ha'
  obtain ⟨hbd, hbg⟩ := hb'
  unfold RecordLe recordLeB at hr
  simp only at hr
  rw [had, hbd, dateLtB_irrefl] at hr
  rw [hag, hbg, strLtB_irrefl] at hr
  simpa using hr

/-! ## Period aggregation

Models `calculate_period_total` in `src/utils/helpers.py`.  The valid
period identifiers are the literal strings `"today"` and `"month"`;
anything else raises `ValueError("Invalid period. Use 'today' or
'month'.")`.  The month window is `[datetime(y, m, 1),
datetime(y, m + 1, 1) - Timedelta(days=1)]`; the second constructor
call raises `ValueError` whenever `m + 1` exceeds 12, i.e. for any
December reference date.  The totals table is the
`groupby("user")["points"].sum()` (keys in ascending order) sorted by
points descending. -/

/-- The `groupby("user")["points"].sum().reset_index()` followed by
`sort_values(by="points", ascending=False)`. -/
def period_totals (df : List Ranked) : List (String × Nat) :=
  let users := List.insertionSort (fun a b : String => (!(strLtB b.data a.data)) = true)
    ((df.map (fun r => r.user)).dedup)
  let totals := users.map
    (fun u => (u, ((df.filter (fun r => decide (r.user = u))).map (fun r => r.points)).sum))
  List.insertionSort (fun x y : String × Nat => y.2 ≤ x.2) totals

/-- Models `calculate_period_total`: restrict the ranked table to the
requested window around the reference date and total the points per
user.  Errors model the uncaught `ValueError`s of the source. -/
def calculate_period_total (sorted_df : List Ranked) (today : PyDate) (period : String) :
    Except String (List Ranked × List (String × Nat)) :=
  if period = "today" then
    let period_df := sorted_df.filter (fun r => decide (r.date = today))
    .ok (period_df, period_totals period_df)
  else if period = "month" then
    match pyDatetime today.year today.month 1 with
    | none => .error "ValueError"
    | some start_of_month =>
      match pyDatetime today.year (today.month + 1) 1 with
      | none => .error "ValueError"
      | some first_of_next =>
        let end_of_month := subOneDay first_of_next
        let period_df := sorted_df.filter
          (fun r => dateLeB start_of_month r.date && dateLeB r.date end_of_month)
        .ok (period_df, period_totals period_df)
  else
    .error "Invalid period. Use 'today' or 'month'."

/-! ## The Wordle parser

Models `wordle_attempts` in `src/utils/calculate_attempts.py` together
with `wordle_pattern = re.compile(r"Wordle.+(.)/[0-9]")` from
`src/utils/patterns.py`.  Python's `re.search` finds the leftmost
start position at which the pattern matches; within that match the
greedy `.+` backtracks from the right, so the single captured
character `(.)` sits at the largest position that is followed by a
slash and a digit, is preceded by at least one character after the
literal `Wordle`, and is reachable without crossing a newline (the
dot does not match a newline).  The capture is then subjected to
`.replace("X", "7")`. -/

/-- Can the capture group of `Wordle.+(.)/[0-9]` sit at offset `c` of
the text following the literal `Wordle`?  Requires at least one
character consumed by the greedy `.+` (`1 ≤ c`), the captured
character not a newline and followed by `/` and a digit, and no
newline among the characters the `.+` consumes. -/
def validCap (rest : List Char) (c : Nat) : Bool :=
  decide (1 ≤ c) &&
    (match rest.drop c with
     | x :: y :: dg :: _ => decide (x ≠ '\n') && decide (y = '/') && dg.isDigit
     | _ => false) &&
    (rest.take c).all (fun ch => decide (ch ≠ '\n'))

/-- Offset of the capture chosen by the greedy `.+`: the largest valid
capture offset, if any. -/
def capIdx (rest : List Char) : Option Nat :=
  ((List.range rest.length).filter (validCap rest)).getLast?

/-- The captured character of `Wordle.+(.)/[0-9]` in the text
following the literal `Wordle`. -/
def wordleCapture (rest : List Char) : Option Char :=
  (capIdx rest).bind (fun c => (rest.drop c).head?)

/-- The `re.search` over the whole message: try each start position
left to right; at the first position where the literal `Wordle`
matches and a capture exists, return `group(1)`. -/
def wordle_search : List Char → Option Char
  | [] => none
  | ch :: rest =>
      if "Wordle".data.isPrefixOf (ch :: rest) &&
          (wordleCapture ((ch :: rest).drop 6)).isSome then
        wordleCapture ((ch :: rest).drop 6)
      else
        wordle_search rest

/-- Models `wordle_attempts`: the captured character after
`.replace("X", "7")` (the capture is a single character, so the
replace either turns an `X` into `7` or leaves it unchanged);
`none` models `search` returning `None`, on which `.group(1)` would
raise `AttributeError`. -/
def wordle_attempts (s : List Char) : Option Char :=
  (wordle_search s).map (fun k => if k = 'X' then '7' else k)

/-- The numeric score the returned attempt string is coerced to when
stored in the integer `score` column. -/
def wordleScore (s : List Char) : Option Nat :=
  (wordle_attempts s).map (fun c => c.toNat - '0'.toNat)

/-- A well-formed Wordle header text `Wordle <n> <k>/6`. -/
def mkWordleHeader (n : List Char) (k : Char) : List Char :=
  'W' :: 'o' :: 'r' :: 'd' :: 'l' :: 'e' :: ' ' :: (n ++ (' ' :: k :: '/' :: '6' :: []))

/-- Substring test (is `pat` a contiguous segment of the text?), as in
Python's `in` on strings. -/
def hasSegment (pat : List Char) : List Char → Bool
  | [] => pat.isEmpty
  | c :: rest => pat.isPrefixOf (c :: rest) || hasSegment pat rest

/-! ## The Connections parsers

Two incompatible copies live in the repository.

The copy in `src/utils/calculate_attempts.py` filters the message
lines to those containing a "colour square", then forces attempts to 8
if the final such line is not a single uniform colour.  Its
`connection_colours` string literal is mojibake: the file stores the
UTF-8 bytes of the four squares re-decoded as cp1252, so the literal
is the sixteen characters below rather than the four emoji.  The copy
in `src/app.py` has the four real emoji and no final-line check. -/

/-- The `connection_colours` literal of
`src/utils/calculate_attempts.py` as it appears in the file: the
sixteen mojibake characters (each intended square became the four
characters of its cp1252 mis-decoding). -/
def connection_colours : List Char :=
  ['ð', 'Ÿ', 'Ÿ', '¨', 'ð', 'Ÿ', 'Ÿ', '©', 'ð', 'Ÿ', 'Ÿ', '¦', 'ð', 'Ÿ', 'Ÿ', 'ª']

/-- The `connection_colours` literal of `src/app.py`: the four real
colour-square emoji. -/
def connection_colours_app : List Char := ['🟨', '🟩', '🟦', '🟪']

/-- Models `connections_attempts` in `src/utils/calculate_attempts.py`
on the `splitlines()` decomposition of the message.  `none` models the
`IndexError` raised by `connections_lines[-1]` (no line contains a
colour character) or by `final_object[0]` (unreachable: a kept line
contains one). -/
def connections_attempts (messageLines : List String) : Option Nat :=
  let connections_lines := messageLines.filter
    (fun line => connection_colours.any (fun sq => line.data.contains sq))
  match connections_lines.getLast? with
  | none => none
  | some lastLine =>
    let final_object := lastLine.data.filter (fun sq => connection_colours.contains sq)
    match final_object with
    | [] => none
    | f :: rest =>
      if (f :: rest).all (fun sq => decide (f = sq)) then some connections_lines.length
      else some 8

/-- Models `connections_attempts` in `src/app.py`: the raw count of
lines containing a colour-square emoji, with no final-line check. -/
def connections_attempts_app (messageLines : List String) : Nat :=
  (messageLines.filter
    (fun line => connection_colours_app.any (fun sq => line.data.contains sq))).length

/-- Does a line start with `Puzzle #` followed by a digit? -/
def startsPuzzleNum (l : List Char) : Bool :=
  match l with
  | 'P' :: 'u' :: 'z' :: 'z' :: 'l' :: 'e' :: ' ' :: '#' :: d :: _ => d.isDigit
  | _ => false

/-- Models `connections_pattern = re.compile(r"Connections.*\nPuzzle
#[0-9]+")` from `src/utils/patterns.py` on the line decomposition of a
message: some line contains the literal `Connections` (the dot-star
stays within the line) and the next line starts with `Puzzle #` and a
digit. -/
def connections_pattern_matches : List String → Bool
  | [] => false
  | [_] => false
  | l1 :: l2 :: rest =>
      (hasSegment "Connections".data l1.data && startsPuzzleNum l2.data) ||
        connections_pattern_matches (l2 :: rest)

/-! ### Wordle capture lemmas -/

theorem isDigit_toNat {c : Char} (h : c.isDigit = true) :
    48 ≤ c.toNat ∧ c.toNat ≤ 57 := by
  simp [Char.isDigit] at h
  exact ⟨h.1, h.2⟩

/-- Characters with code point at least 48 are neither a newline nor a
slash. -/
theorem char_ne_special {c : Char} (h : 48 ≤ c.toNat) : c ≠ '\n' ∧ c ≠ '/' := by
  constructor <;> intro heq <;> subst heq <;> revert h <;> decide

/-- Characters of the header before the attempt character: never a
slash, never a newline. -/
theorem header_chars_ok (n : List Char) (hn : ∀ c ∈ n, c.isDigit = true) :
    ∀ x ∈ (' ' :: (n ++ [' '])), x ≠ '/' ∧ x ≠ '\n' := by
  intro x hx
  rcases List.mem_cons.mp hx with h | h
  · subst h; exact ⟨by decide, by decide⟩
  · rcases List.mem_append.mp h with h' | h'
    · have hd := isDigit_toNat (hn x h')
      have := char_ne_special hd.1
      exact ⟨this.2, this.1⟩
    · rcases List.mem_singleton.mp h' with rfl
      exact ⟨by decide, by decide⟩

/-- The attempt character of a header (a digit between 1 and 6, or the
failure marker X) has code point at least 48. -/
theorem char_le_toNat {a b : Char} (h : a ≤ b) : a.toNat ≤ b.toNat := by
  simpa [Char.le_def, UInt32.le_def, Char.toNat, UInt32.toNat] using h

theorem attempt_char_toNat {k : Char} (hk : ('1' ≤ k ∧ k ≤ '6') ∨ k = 'X') :
    48 ≤ k.toNat := by
  rcases hk with ⟨h1, _⟩ | rfl
  · have h2 := char_le_toNat h1
    have h49 : ('1' : Char).toNat = 49 := by decide
    omega
  · decide

/-- In the text following the literal `Wordle` of a well-formed header
`Wordle <n> <k>/6`, the only valid capture offset is the position of
the attempt character `k`. -/
theorem validCap_header (n : List Char) (k : Char)
    (hn : ∀ c ∈ n, c.isDigit = true) (hk : ('1' ≤ k ∧ k ≤ '6') ∨ k = 'X') (c : Nat) :
    validCap (' ' :: (n ++ (' ' :: k :: '/' :: '6' :: []))) c = true ↔
      c = n.length + 2 := by
  have hkn := char_ne_special (attempt_char_toNat hk)
  set B : List Char := ' ' :: (n ++ [' ']) with hBdef
  have hBlen : B.length = n.length + 2 := by simp [hBdef]
  have hB : (' ' :: (n ++ (' ' :: k :: '/' :: '6' :: []))) = B ++ (k :: '/' :: '6' :: []) := by
    simp [hBdef]
  rw [hB]
  constructor
  · intro hvalid
    unfold validCap at hvalid
    simp only [Bool.and_eq_true, decide_eq_true_eq] at hvalid
    obtain ⟨⟨hc1, hmatch⟩, htake⟩ := hvalid
    -- extract the three matched characters
    rcases hdrop : (B ++ (k :: '/' :: '6' :: [])).drop c with _ | ⟨x, _ | ⟨y, _ | ⟨dg, t⟩⟩⟩ <;>
      rw [hdrop] at hmatch
    · simp at hmatch
    · simp at hmatch
    · simp at hmatch
    simp only [Bool.and_eq_true, decide_eq_true_eq] at hmatch
    obtain ⟨⟨hx, hy⟩, hdg⟩ := hmatch
    subst hy
    -- bound the offset with the length of the text
    have hlen : (B ++ (k :: '/' :: '6' :: [])).length = n.length + 5 := by
      simp [hBlen]
    have hdlen := List.length_drop c (B ++ (k :: '/' :: '6' :: []))
    rw [hdrop] at hdlen
    simp only [List.length_cons, hlen] at hdlen
    have hcle : c ≤ n.length + 2 := by omega
    by_cases hceq : c = n.length + 2
    · exact hceq
    exfalso
    have hclt : c < n.length + 2 := by omega
    -- the slash sits at offset c + 1, still inside B: impossible
    have hdrop1 : (B ++ (k :: '/' :: '6' :: [])).drop (c + 1) = '/' :: dg :: t := by
      have h1 := List.drop_drop 1 c (B ++ (k :: '/' :: '6' :: []))
      rw [hdrop] at h1
      simpa [Nat.add_comm] using h1.symm
    have hsplit := @List.drop_append_eq_append_drop Char B (k :: '/' :: '6' :: []) (c + 1)
    have hz : c + 1 - B.length = 0 := by omega
    rw [hz, List.drop_zero, hdrop1] at hsplit
    rcases hBd : B.drop (c + 1) with _ | ⟨b, bs⟩
    · rw [hBd, List.nil_append] at hsplit
      have hk2 : '/' = k := (List.cons.injEq _ _ _ _ ▸ hsplit).1
      exact hkn.2 hk2.symm
    · rw [hBd, List.cons_append] at hsplit
      have hb : '/' = b := (List.cons.injEq _ _ _ _ ▸ hsplit).1
      have hbB : b ∈ B := List.mem_of_mem_drop (hBd ▸ List.mem_cons_self b bs)
      exact (header_chars_ok n hn b hbB).1 hb.symm
  · intro hceq
    subst hceq
    have hdrop : (B ++ (k :: '/' :: '6' :: [])).drop (n.length + 2) =
        k :: '/' :: '6' :: [] := by
      rw [← hBlen]
      exact List.drop_left B _
    have htake : (B ++ (k :: '/' :: '6' :: [])).take (n.length + 2) = B := by
      rw [← hBlen]
      exact List.take_left B _
    unfold validCap
    rw [hdrop, htake]
    simp only [Bool.and_eq_true, decide_eq_true_eq, List.all_eq_true]
    refine ⟨⟨by omega, ?_⟩, ?_⟩
    · exact ⟨⟨hkn.1, trivial⟩, by decide⟩
    · intro x hx
      exact (header_chars_ok n hn x hx).2

/-- A filter over an initial segment of the naturals whose predicate
holds at exactly one value keeps exactly that value. -/
theorem filter_range_single (p : Nat → Bool) (L j : Nat) (hj : j < L)
    (hp : ∀ c, p c = true ↔ c = j) : (List.range L).filter p = [j] := by
  induction L with
  | zero => omega
  | succ L ih =>
    rw [List.range_succ, List.filter_append]
    by_cases hjL : j = L
    · subst hjL
      have h1 : (List.range j).filter p = [] := by
        rw [List.filter_eq_nil_iff]
        intro a ha hpa
        have haj := (hp a).mp hpa
        have halt : a < j := List.mem_range.mp ha
        omega
      have h2 : p j = true := (hp j).mpr rfl
      simp [h1, h2]
    · have hlt : j < L := by omega
      rw [ih hlt]
      have h2 : p L = false := by
        rw [Bool.eq_false_iff]
        intro hc
        exact hjL ((hp L).mp hc).symm
      simp [h2]

/-- On a well-formed header tail, the greedy capture offset is the
position of the attempt character. -/
theorem capIdx_header (n : List Char) (k : Char)
    (hn : ∀ c ∈ n, c.isDigit = true) (hk : ('1' ≤ k ∧ k ≤ '6') ∨ k = 'X') :
    capIdx (' ' :: (n ++ (' ' :: k :: '/' :: '6' :: []))) = some (n.length + 2) := by
  unfold capIdx
  have hlen : (' ' :: (n ++ (' ' :: k :: '/' :: '6' :: []))).length = n.length + 5 := by
    simp
  rw [hlen, filter_range_single (validCap _) (n.length + 5) (n.length + 2) (by omega)
    (validCap_header n k hn hk)]
  rfl

/-- On a well-formed header tail, the captured character is the
attempt character. -/
theorem wordleCapture_header (n : List Char) (k : Char)
    (hn : ∀ c ∈ n, c.isDigit = true) (hk : ('1' ≤ k ∧ k ≤ '6') ∨ k = 'X') :
    wordleCapture (' ' :: (n ++ (' ' :: k :: '/' :: '6' :: []))) = some k := by
  unfold wordleCapture
  rw [capIdx_header n k hn hk]
  have hdrop : (' ' :: (n ++ (' ' :: k :: '/' :: '6' :: []))).drop (n.length + 2) =
      k :: '/' :: '6' :: [] := by
    have hsplit : (' ' :: (n ++ (' ' :: k :: '/' :: '6' :: []))) =
        (' ' :: (n ++ [' '])) ++ (k :: '/' :: '6' :: []) := by
      simp
    have hblen : (' ' :: (n ++ [' '])).length = n.length + 2 := by simp
    rw [hsplit, ← hblen]
    exact List.drop_left _ _
  rw [Option.some_bind, hdrop]
  rfl

/-- The regex search on a well-formed header `Wordle <n> <k>/6`
captures the attempt character. -/
theorem wordle_search_header (n : List Char) (k : Char)
    (hn : ∀ c ∈ n, c.isDigit = true) (hk : ('1' ≤ k ∧ k ≤ '6') ∨ k = 'X') :
    wordle_search (mkWordleHeader n k) = some k := by
  have hcap := wordleCapture_header n k hn hk
  have hform : mkWordleHeader n k =
      'W' :: 'o' :: 'r' :: 'd' :: 'l' :: 'e' :: ' ' :: (n ++ (' ' :: k :: '/' :: '6' :: [])) :=
    rfl
  rw [hform, wordle_search]
  have hdrop6 : ('W' :: 'o' :: 'r' :: 'd' :: 'l' :: 'e' :: ' ' ::
      (n ++ (' ' :: k :: '/' :: '6' :: []))).drop 6 =
      ' ' :: (n ++ (' ' :: k :: '/' :: '6' :: [])) := rfl
  rw [hdrop6]
  have hpre : "Wordle".data.isPrefixOf ('W' :: 'o' :: 'r' :: 'd' :: 'l' :: 'e' :: ' ' ::
      (n ++ (' ' :: k :: '/' :: '6' :: []))) = true := by
    simp [List.isPrefixOf, String.data]
  rw [hpre, hcap]
  simp

/-- Parsing a well-formed Wordle header: the failure marker X becomes
the score 7, a digit attempt becomes its numeric value. -/
theorem wordle_header_score (n : List Char) (k : Char)
    (hn : ∀ c ∈ n, c.isDigit = true) (hk : ('1' ≤ k ∧ k ≤ '6') ∨ k = 'X') :
    wordleScore (mkWordleHeader n k) =
      some (if k = 'X' then 7 else k.toNat - '0'.toNat) := by
  unfold wordleScore wordle_attempts
  rw [wordle_search_header n k hn hk]
  by_cases hX : k = 'X'
  · subst hX
    simp
  · simp [hX]

/-! ### Helpers for the ingestion and aggregation claims -/

theorem daysInMonth_pos (y m : Nat) : 1 ≤ daysInMonth y m := by
  unfold daysInMonth
  split_ifs <;> omega

/-- After an accepted ingestion, the key is occupied: a second
ingestion for the same key is rejected, leaves the store as it was
after the first, and exactly one row for the key is stored. -/
theorem ingest_after_ingest (store : Store) (u g : String) (s1 s2 : Int) (d : PyDate)
    (h0 : countKey store u g d = 0) :
    add_game ((add_game store u g s1 d).2) u g s2 d =
      (.rejected, (add_game store u g s1 d).2)
    ∧ countKey ((add_game ((add_game store u g s1 d).2) u g s2 d).2) u g d = 1 := by
  have hsub : user_has_submitted store u g d = false :=
    (countKey_eq_zero_iff store u g d).mp h0
  have h1 : (add_game store u g s1 d).2 = add_game_to_database store u g s1 d := by
    simp [add_game, hsub]
  have hcount1 : countKey (add_game_to_database store u g s1 d) u g d = 1 := by
    rw [countKey_insert_same]
    omega
  have hsub2 : user_has_submitted (add_game_to_database store u g s1 d) u g d = true := by
    by_contra hc
    have hc' : user_has_submitted (add_game_to_database store u g s1 d) u g d = false :=
      Bool.not_eq_true _ ▸ Bool.eq_false_iff.mpr hc
    have := (countKey_eq_zero_iff _ u g d).mpr hc'
    omega
  have h2 : add_game (add_game_to_database store u g s1 d) u g s2 d =
      (.rejected, add_game_to_database store u g s1 d) := by
    simp [add_game, hsub2]
  rw [h1, h2]
  exact ⟨rfl, hcount1⟩

/-! ### Concrete fixtures used by the evaluation theorems -/

/-- A fixed reference date. -/
def d0 : PyDate := ⟨2024, 5, 10⟩

/-- Three same-day Wordle rows with scores `[2, 2, 4]` (the tie
example of the ranking algorithm description). -/
def c3data : List Record :=
  [⟨"A", "Wordle", 2, d0⟩, ⟨"B", "Wordle", 2, d0⟩, ⟨"C", "Wordle", 4, d0⟩]

/-- Three same-day Wordle rows with scores `[3, 3, 5]` (the rank-tie
law example). -/
def c4data : List Record :=
  [⟨"A", "Wordle", 3, d0⟩, ⟨"B", "Wordle", 3, d0⟩, ⟨"C", "Wordle", 5, d0⟩]

/-- Two ranked rows on the two sides of a month boundary: the last day
of January 2024 and the first day of February 2024. -/
def monthEdgeDf : List Ranked :=
  [⟨"A", "Wordle", 3, ⟨2024, 1, 31⟩, 3⟩, ⟨"B", "Wordle", 3, ⟨2024, 2, 1⟩, 3⟩]

/-- One stored row, used as the starting state of the manual-add
counterexample. -/
def c1row : Record := ⟨"Alice", "Wordle", 3, d0⟩

/-- A real Connections share whose last guess line is a single uniform
colour, split into lines. -/
def c8msg : List String := ["Connections", "Puzzle #1", "🟦🟦🟦🟦", "🟨🟨🟨🟨"]

/-- A message the Connections header pattern accepts that has no guess
line at all. -/
def c10msg : List String := ["Connections", "Puzzle #123"]

/-- A text containing the Wordle header `Wordle 900 X/6` followed by
more same-line text with another slash-digit pair. -/
def c6text : List Char := "Wordle 900 X/6 1/2".data

/-! ## The claims -/

/-- C1, counterexample: the uniqueness invariant is NOT preserved by
every engine operation.  From a store holding one row for
`(Alice, Wordle, d0)` — a state satisfying the invariant — the manual
add (`/add`) inserts a second row for the very same key, because
`add_manual_score` never consults `user_has_submitted` and the schema
has no uniqueness constraint. -/
theorem claim_C1_counterexample :
    KeyUnique [c1row]
    ∧ ¬ KeyUnique (add_manual_score [c1row] "Alice" "Wordle" 4 d0) := by
  constructor
  · intro u g d
    exact countKey_singleton_le_one c1row u g d
  · intro h
    have h2 := h "Alice" "Wordle" d0
    have h3 : countKey (add_manual_score [c1row] "Alice" "Wordle" 4 d0)
        "Alice" "Wordle" d0 = 2 := by decide
    omega

/-- C1, amended: the ingest path (`add_game`) and the clear path
(`clear_table`) preserve the at-most-one-row-per-`(user, game, date)`
invariant; the manual-add path does not (see the counterexample). -/
theorem claim_C1_amended (store : Store) (u g : String) (s : Int) (d dc : PyDate)
    (user? : Option String) (hinv : KeyUnique store) :
    KeyUnique ((add_game store u g s d).2) ∧ KeyUnique (clear_table store dc user?) := by
  constructor
  · by_cases hsub : user_has_submitted store u g d = true
    · have heq : (add_game store u g s d).2 = store := by simp [add_game, hsub]
      rw [heq]
      exact hinv
    · have hsub' : user_has_submitted store u g d = false := Bool.eq_false_iff.mpr hsub
      have heq : (add_game store u g s d).2 = add_game_to_database store u g s d := by
        simp [add_game, hsub']
      rw [heq]
      intro u' g' d'
      by_cases hkey : u = u' ∧ g = g' ∧ d = d'
      · obtain ⟨rfl, rfl, rfl⟩ := hkey
        rw [countKey_insert_same]
        have h0 : countKey store u g d = 0 := (countKey_eq_zero_iff store u g d).mpr hsub'
        omega
      · rw [countKey_insert_other store u g u' g' s d d' hkey]
        exact hinv u' g' d'
  · intro u' g' d'
    exact le_trans (countKey_clear_le store dc user? u' g' d') (hinv u' g' d')

/-- Witness for the amended C1 at a concrete state. -/
theorem claim_C1_witness :
    KeyUnique ((add_game [] "Alice" "Wordle" 3 d0).2) :=
  (claim_C1_amended [] "Alice" "Wordle" 3 d0 d0 none
    (fun u g d => by simp [countKey])).1

/-- C2: ingesting into an occupied `(user, game, date)` key is
rejected and leaves the store unchanged; ingesting into a free key is
accepted and appends the row verbatim; and after a first accepted
ingest, a second ingest of any score for the same key is rejected with
exactly one row for the key remaining. -/
theorem claim_C2 (store : Store) (u g : String) (s s1 s2 : Int) (d : PyDate) :
    (user_has_submitted store u g d = true →
      add_game store u g s d = (.rejected, store))
    ∧ (user_has_submitted store u g d = false →
      add_game store u g s d = (.accepted, store ++ [⟨u, g, s, d⟩]))
    ∧ (countKey store u g d = 0 →
        add_game ((add_game store u g s1 d).2) u g s2 d =
          (.rejected, (add_game store u g s1 d).2)
        ∧ countKey ((add_game ((add_game store u g s1 d).2) u g s2 d).2) u g d = 1) := by
  refine ⟨?_, ?_, ?_⟩
  · intro h
    simp [add_game, h]
  · intro h
    simp [add_game, h, add_game_to_database]
  · intro h0
    exact ingest_after_ingest store u g s1 s2 d h0

/-- Witness for C2: a duplicate submission with a different score is
rejected and one row remains. -/
theorem claim_C2_witness :
    add_game ((add_game [] "Alice" "Wordle" 3 d0).2) "Alice" "Wordle" 4 d0 =
      (.rejected, (add_game [] "Alice" "Wordle" 3 d0).2)
    ∧ countKey ((add_game ((add_game [] "Alice" "Wordle" 3 d0).2)
        "Alice" "Wordle" 4 d0).2) "Alice" "Wordle" d0 = 1 :=
  (claim_C2 [] "Alice" "Wordle" 3 3 4 d0).2.2 (by decide)

/-- C3: within each `(date, game)` group the ranking engine orders
rows by ascending score, every output row's points are the
`{1: 3, 2: 2, 3: 1}`-image (0 outside the mapping) of its
`rank(method="min")`, the min-rank in a sorted group is one plus the
index of the first occurrence of the score (tied scores share the
first tied position), and ranks 4 and beyond (or outside the mapping)
always give 0 points. -/
theorem claim_C3 (data : List Record) :
    (∀ x ∈ calculate_rankings data,
      x.points = point_mapping (rank_min (groupScores data x.date x.game) x.score))
    ∧ (∀ d g, List.Pairwise (fun a b : Ranked => a.score ≤ b.score)
        ((calculate_rankings data).filter
          (fun x => decide (x.date = d) && decide (x.game = g))))
    ∧ (∀ l : List Int, List.Sorted (fun a b : Int => a ≤ b) l →
        ∀ s ∈ l, rank_min l s = l.indexOf s + 1)
    ∧ (point_mapping 1 = 3 ∧ point_mapping 2 = 2 ∧ point_mapping 3 = 1)
    ∧ (∀ r, 4 ≤ r ∨ (r ≠ 1 ∧ r ≠ 2 ∧ r ≠ 3) → point_mapping r = 0) := by
  refine ⟨fun x hx => calculate_rankings_points data x hx,
    fun d g => calculate_rankings_group_sorted data d g,
    fun l hl s hs => rank_min_eq_indexOf_succ l hl s hs,
    ⟨rfl, rfl, rfl⟩, ?_⟩
  intro r hr
  unfold point_mapping
  rcases hr with h | ⟨h1, h2, h3⟩ <;> split_ifs <;> omega

/-- Witness for C3 at the tie example `[2, 2, 4]`. -/
theorem claim_C3_witness :
    (⟨"A", "Wordle", 2, d0, 3⟩ : Ranked).points =
      point_mapping (rank_min (groupScores c3data d0 "Wordle") 2) :=
  (claim_C3 c3data).1 ⟨"A", "Wordle", 2, d0, 3⟩ (by decide)

/-- C4, counterexample: for one-group scores `[3, 3, 5]` the engine
computes points `[3, 3, 1]` — the third row has rank 3, which the
mapping `{1: 3, 2: 2, 3: 1}` sends to 1 point, not the 0 the claim
asserts. -/
theorem claim_C4_counterexample :
    (calculate_rankings c4data).map (fun x => x.points) = [3, 3, 1]
    ∧ [3, 3, 1] ≠ ([3, 3, 0] : List Nat) :=
  ⟨by decide, by decide⟩

/-- C4, amended: for one-group scores `[3, 3, 5]` the ranks are
`[1, 1, 3]` and the points are `[3, 3, 1]`. -/
theorem claim_C4_amended :
    (calculate_rankings c4data).map
        (fun x => rank_min (groupScores c4data x.date x.game) x.score) = [1, 1, 3]
    ∧ (calculate_rankings c4data).map (fun x => x.points) = [3, 3, 1] :=
  ⟨by decide, by decide⟩

/-- C5: the month window is computed correctly for January and
February reference dates (the records dated 2024-01-31 and 2024-02-01
land in different monthly aggregates), but any December reference date
makes `datetime(year, month + 1, 1)` raise `ValueError`, so monthly
aggregation crashes instead of including the December records. -/
theorem claim_C5_month_window :
    calculate_period_total monthEdgeDf ⟨2024, 1, 15⟩ "month" =
      .ok ([⟨"A", "Wordle", 3, ⟨2024, 1, 31⟩, 3⟩], [("A", 3)])
    ∧ calculate_period_total monthEdgeDf ⟨2024, 2, 10⟩ "month" =
      .ok ([⟨"B", "Wordle", 3, ⟨2024, 2, 1⟩, 3⟩], [("B", 3)])
    ∧ calculate_period_total monthEdgeDf ⟨2023, 12, 15⟩ "month" = .error "ValueError" :=
  ⟨rfl, rfl, rfl⟩

/-- C6, counterexample: the text `Wordle 900 X/6 1/2` contains the
Wordle header `Wordle 900 X/6` with failure marker X, yet the parser
scores it 1, not 7: the greedy `.+` hands the capture to the last
character followed by a slash and a digit on the line. -/
theorem claim_C6_counterexample :
    hasSegment "Wordle 900 X/6".data c6text = true
    ∧ wordleScore c6text = some 1
    ∧ some (1 : Nat) ≠ some (7 : Nat) :=
  ⟨by decide, by decide, by decide⟩

/-- C6, amended: for every text that is exactly a Wordle header
`Wordle <n> <k>/6` (digits `n`, attempt character `k` in `1..6` or
`X`), the parsed score is 7 when `k` is the failure marker X and the
numeric value of `k` otherwise. -/
theorem claim_C6_amended (n : List Char) (k : Char)
    (hn : ∀ c ∈ n, c.isDigit = true) (hk : ('1' ≤ k ∧ k ≤ '6') ∨ k = 'X') :
    wordleScore (mkWordleHeader n k) =
      some (if k = 'X' then 7 else k.toNat - '0'.toNat) :=
  wordle_header_score n k hn hk

/-- Witness for the amended C6: `Wordle 900 X/6` parses to score 7. -/
theorem claim_C6_witness :
    wordleScore (mkWordleHeader ['9', '0', '0'] 'X') = some 7 := by
  have h := claim_C6_amended ['9', '0', '0'] 'X' (by decide) (Or.inr rfl)
  simpa using h

/-- C7, counterexample: the period identifier `"day"` does not
succeed — it falls into the error branch, because the accepted
identifiers are `"today"` and `"month"`. -/
theorem claim_C7_counterexample :
    calculate_period_total monthEdgeDf ⟨2024, 5, 10⟩ "day" =
      .error "Invalid period. Use 'today' or 'month'." := rfl

/-- C7, amended: `"today"` succeeds and keeps exactly the rows whose
date equals the reference date; `"month"` succeeds for reference dates
with a valid year and month 1..11; every other identifier — including
`"day"` — fails with the `InvalidPeriod` error. -/
theorem claim_C7_amended (df : List Ranked) (today : PyDate) (p : String)
    (hp1 : p ≠ "today") (hp2 : p ≠ "month") :
    calculate_period_total df today "today" =
      .ok (df.filter (fun r => decide (r.date = today)),
        period_totals (df.filter (fun r => decide (r.date = today))))
    ∧ (1 ≤ today.year → today.year ≤ 9999 → 1 ≤ today.month → today.month ≤ 11 →
        (calculate_period_total df today "month").isOk = true)
    ∧ calculate_period_total df today p =
        .error "Invalid period. Use 'today' or 'month'." := by
  refine ⟨rfl, ?_, ?_⟩
  · intro hy1 hy2 hm1 hm2
    have h1 : pyDatetime today.year today.month 1 = some ⟨today.year, today.month, 1⟩ := by
      unfold pyDatetime
      rw [if_pos]
      exact ⟨hy1, hy2, hm1, by omega, le_refl 1, daysInMonth_pos _ _⟩
    have h2 : pyDatetime today.year (today.month + 1) 1 =
        some ⟨today.year, today.month + 1, 1⟩ := by
      unfold pyDatetime
      rw [if_pos]
      exact ⟨hy1, hy2, by omega, by omega, le_refl 1, daysInMonth_pos _ _⟩
    simp [calculate_period_total, h1, h2, Except.isOk, Except.toBool]
  · simp [calculate_period_total, hp1, hp2]

/-- Witness for the amended C7: an unknown identifier errors, `"month"`
succeeds away from December. -/
theorem claim_C7_witness :
    calculate_period_total [] ⟨2024, 5, 10⟩ "never" =
      .error "Invalid period. Use 'today' or 'month'."
    ∧ (calculate_period_total [] ⟨2024, 5, 10⟩ "month").isOk = true := by
  have h := claim_C7_amended [] ⟨2024, 5, 10⟩ "never" (by decide) (by decide)
  exact ⟨h.2.2, h.2.1 (by decide) (by decide) (by decide) (by decide)⟩

/-- C8: on a real Connections share whose final guess line is a single
uniform colour, the two parser variants disagree: the `src/app.py`
variant reports the raw count of emoji guess lines (2), while the
`src/utils/calculate_attempts.py` variant — whose colour constant is
the mojibake string, matching no emoji line — filters zero lines and
crashes with `IndexError` (modelled as `none`). -/
theorem claim_C8_divergence :
    connections_pattern_matches c8msg = true
    ∧ connections_attempts_app c8msg = 2
    ∧ connections_attempts c8msg = none :=
  ⟨by decide, by decide, by decide⟩

/-- C9, counterexample: two racing ingestions for the same key, each
an atomic check followed by an atomic insert with the checks
interleaved before the inserts, leave two stored rows for the key, not
one: the check and the insert are two separate store calls and the
store never rejects an insert. -/
theorem claim_C9_counterexample :
    countKey (interleavedDoubleIngest [] "Alice" "Wordle" 3 4 d0) "Alice" "Wordle" d0 = 2
    ∧ (2 : Nat) ≠ 1 :=
  ⟨by decide, by decide⟩

/-- C9, amended: from any state where the key is free, the
check-check-insert-insert interleaving stores two rows for the key
(the race double-inserts), whereas the purely sequential run of the
same two ingestions rejects the second. -/
theorem claim_C9_amended (store : Store) (u g : String) (s1 s2 : Int) (d : PyDate)
    (h : user_has_submitted store u g d = false) :
    countKey (interleavedDoubleIngest store u g s1 s2 d) u g d = 2
    ∧ (add_game ((add_game store u g s1 d).2) u g s2 d).1 = .rejected := by
  have h0 : countKey store u g d = 0 := (countKey_eq_zero_iff store u g d).mpr h
  constructor
  · unfold interleavedDoubleIngest
    simp only [h, Bool.false_eq_true, if_false]
    rw [countKey_insert_same, countKey_insert_same]
    omega
  · have hseq := (ingest_after_ingest store u g s1 s2 d h0).1
    rw [hseq]

/-- Witness for the amended C9 from the empty store. -/
theorem claim_C9_witness :
    countKey (interleavedDoubleIngest [] "Alice" "Wordle" 3 4 d0) "Alice" "Wordle" d0 = 2
    ∧ (add_game ((add_game [] "Alice" "Wordle" 3 d0).2) "Alice" "Wordle" 4 d0).1 =
      .rejected :=
  claim_C9_amended [] "Alice" "Wordle" 3 4 d0 (by decide)

/-- C10: a message consisting of the lines `Connections` and
`Puzzle #123` is accepted by the Connections header pattern, yet
`connections_attempts` fails (it indexes the last element of the empty
list of guess lines, modelled as `none`), so the message handler
crashes on it instead of ingesting or ignoring it. -/
theorem claim_C10_crash :
    connections_pattern_matches c10msg = true
    ∧ connections_attempts c10msg = none :=
  ⟨by decide, by decide⟩
